import Mathlib

/-!
Verification of the inky-frame display driver: color model, bit-packed
framebuffer with rotation-aware addressing, and the wire-level command
protocol of the panel controller.  Definitions are shallow embeddings of
the Rust source (src/display/color.rs, src/display/display.rs,
src/display/mod.rs, src/shift_register.rs); machine integers are modelled
as Nat, with masking made explicit where the source relies on it.
-/

set_option maxRecDepth 10000

deriving instance DecidableEq for Except

/-- Error raised when a raw nibble does not map to one of the 8 colors.
Embeds OutOfColorRangeParseError(u8) from color.rs. -/
structure OutOfColorRangeParseError where
  val : Nat
deriving DecidableEq

/-- The 8-value quantized color space of the panel (color.rs, OctColor). -/
inductive OctColor where
  | Black
  | White
  | Green
  | Blue
  | Red
  | Yellow
  | Orange
  | HiZ
deriving DecidableEq, Fintype

/-- Discriminant of the enum, i.e. `self as u8` (color.rs get_nibble). -/
def OctColor.get_nibble : OctColor → Nat
  | .Black => 0x00
  | .White => 0x01
  | .Green => 0x02
  | .Blue => 0x03
  | .Red => 0x04
  | .Yellow => 0x05
  | .Orange => 0x06
  | .HiZ => 0x07

/-- Packs two colors into one byte (color.rs colors_byte):
`a.get_nibble() << 4 | b.get_nibble()`. -/
def OctColor.colors_byte (a b : OctColor) : Nat :=
  (a.get_nibble <<< 4) ||| b.get_nibble

/-- Decode the low 4 bits of a byte to a color (color.rs from_nibble). -/
def OctColor.from_nibble (nibble : Nat) :
    Except OutOfColorRangeParseError OctColor :=
  match nibble &&& 0xf with
  | 0x00 => .ok .Black
  | 0x01 => .ok .White
  | 0x02 => .ok .Green
  | 0x03 => .ok .Blue
  | 0x04 => .ok .Red
  | 0x05 => .ok .Yellow
  | 0x06 => .ok .Orange
  | 0x07 => .ok .HiZ
  | e => .error ⟨e⟩

/-- Split both nibbles of a byte into colors (color.rs split_byte);
the low nibble is decoded first, the pair is returned high-first. -/
def OctColor.split_byte (byte : Nat) :
    Except OutOfColorRangeParseError (OctColor × OctColor) :=
  match OctColor.from_nibble (byte &&& 0xf) with
  | .error e => .error e
  | .ok low =>
    match OctColor.from_nibble ((byte >>> 4) &&& 0xf) with
    | .error e => .error e
    | .ok high => .ok (high, low)

/-- Fixed RGB triple of each color (color.rs rgb). -/
def OctColor.rgb : OctColor → Nat × Nat × Nat
  | .White => (0xff, 0xff, 0xff)
  | .Black => (0x00, 0x00, 0x00)
  | .Green => (0x00, 0xff, 0x00)
  | .Blue => (0x00, 0x00, 0xff)
  | .Red => (0xff, 0x00, 0x00)
  | .Yellow => (0xff, 0xff, 0x00)
  | .Orange => (0xff, 0x80, 0x00)
  | .HiZ => (0x80, 0x80, 0x80)

/-- The colors array used by the RGB conversions, in enumeration order
(color.rs, the `colors` local of the From impls). -/
def octColors : List OctColor :=
  [.Black, .White, .Green, .Blue, .Red, .Yellow, .Orange, .HiZ]

/-- Squared euclidean distance in (r,g,b) space, as computed with i32
arithmetic in color.rs (the differences are taken color-minus-input). -/
def sqDist (c : OctColor) (r g b : Nat) : Int :=
  let t := c.rgb
  ((t.1 : Int) - (r : Int)) ^ 2 + ((t.2.1 : Int) - (g : Int)) ^ 2 +
    ((t.2.2 : Int) - (b : Int)) ^ 2

/-- Rust `Iterator::min_by_key` keyed on the second component: fold that
replaces the current best only on a strictly smaller key, so the first
minimum wins ties. -/
def min_by_key (l : List (OctColor × Int)) : Option (OctColor × Int) :=
  match l with
  | [] => none
  | x :: rest => some (rest.foldl (fun best y => if y.2 < best.2 then y else best) x)

/-- Nearest-color conversion from an 8-bit RGB triple
(color.rs, `From<Rgb888> for OctColor`): exact match via `find`,
otherwise minimum squared distance with `min_by_key`, default White. -/
def from_rgb888 (r g b : Nat) : OctColor :=
  match octColors.find? (fun c => c.rgb == (r, g, b)) with
  | some found => found
  | none =>
    (((octColors.map (fun c => (c, sqDist c r g b))) |> min_by_key).map
      Prod.fst).getD .White

/-- Masking a Nat with 0xf is reduction mod 16. -/
lemma nat_and_fifteen (n : Nat) : n &&& 0xf = n % 16 := by
  have h := Nat.and_pow_two_sub_one_eq_mod n 4
  norm_num at h
  exact h

/-- No two colors share an RGB triple. -/
lemma rgb_injective : ∀ a b : OctColor, a.rgb = b.rgb → a = b := by decide

/-- Every color occurs in the conversion list. -/
lemma mem_octColors : ∀ c : OctColor, c ∈ octColors := by decide

/-- A sum of three squares over the integers vanishes only summand-wise. -/
lemma sq3_eq_zero (a b c : Int) :
    a ^ 2 + b ^ 2 + c ^ 2 = 0 ↔ a = 0 ∧ b = 0 ∧ c = 0 := by
  constructor
  · intro h
    have ha : a ^ 2 = 0 := by nlinarith [sq_nonneg a, sq_nonneg b, sq_nonneg c]
    have hb : b ^ 2 = 0 := by nlinarith [sq_nonneg a, sq_nonneg b, sq_nonneg c]
    have hc : c ^ 2 = 0 := by nlinarith [sq_nonneg a, sq_nonneg b, sq_nonneg c]
    exact ⟨sq_eq_zero_iff.mp ha, sq_eq_zero_iff.mp hb, sq_eq_zero_iff.mp hc⟩
  · rintro ⟨rfl, rfl, rfl⟩
    ring

/-- Squared distances are never negative. -/
lemma sqDist_nonneg (c : OctColor) (r g b : Nat) : 0 ≤ sqDist c r g b := by
  cases c <;> simp only [sqDist, OctColor.rgb] <;> positivity

/-- A squared distance vanishes exactly on the color of that RGB triple. -/
lemma sqDist_eq_zero_iff (c : OctColor) (r g b : Nat) :
    sqDist c r g b = 0 ↔ c.rgb = (r, g, b) := by
  cases c <;>
    (simp only [sqDist, OctColor.rgb]
     rw [sq3_eq_zero]
     simp only [Prod.mk.injEq]
     omega)

/-- The position of each color in the conversion list is its discriminant:
enumeration order and code order coincide, Black first. -/
lemma indexOf_octColors : ∀ c : OctColor, octColors.indexOf c = c.get_nibble := by
  decide

/-- The min_by_key fold over a keyed copy of a list tracks Mathlib
List.argAux step by step. -/
lemma min_by_key_fold_aux (f : OctColor → Int) :
    ∀ (t : List OctColor) (a : OctColor),
      some ((t.map (fun c => (c, f c))).foldl
          (fun best y => if y.2 < best.2 then y else best) (a, f a)) =
        (t.foldl (List.argAux (fun b c => f b < f c)) (some a)).map
          (fun c => (c, f c)) := by
  intro t
  induction t with
  | nil => intro a; rfl
  | cons b t ih =>
    intro a
    have h1 : (if f b < f a then (b, f b) else (a, f a)) =
        ((if f b < f a then b else a), f (if f b < f a then b else a)) := by
      by_cases hc : f b < f a <;> simp [hc]
    have h2 : List.argAux (fun b c => f b < f c) (some a) b =
        some (if f b < f a then b else a) := by
      by_cases hc : f b < f a <;> simp [List.argAux, hc]
    simp only [List.map_cons, List.foldl_cons]
    rw [h1, h2]
    exact ih _

/-- The Rust min_by_key over the keyed color list is Mathlib argmin. -/
lemma min_by_key_eq_argmin (f : OctColor → Int) (l : List OctColor) :
    min_by_key (l.map (fun c => (c, f c))) =
      (l.argmin f).map (fun c => (c, f c)) := by
  cases l with
  | nil => rfl
  | cons a t =>
    have harg : List.argmin f (a :: t) =
        t.foldl (List.argAux (fun b c => f b < f c)) (some a) := rfl
    have hmk : min_by_key ((a, f a) :: t.map (fun c => (c, f c))) =
        some ((t.map (fun c => (c, f c))).foldl
          (fun best y => if y.2 < best.2 then y else best) (a, f a)) := rfl
    rw [List.map_cons, hmk, harg]
    exact min_by_key_fold_aux f t a

/-- The fold behind min_by_key over the 8-color list picks a listed color
of minimal key, and among minimal keys the one earliest in enumeration
order (smallest discriminant). -/
lemma pick_min_spec (f : OctColor → Int) (res : OctColor)
    (h : (((octColors.map (fun c => (c, f c))) |> min_by_key).map Prod.fst).getD .White = res) :
    res ∈ octColors ∧ (∀ c ∈ octColors, f res ≤ f c) ∧
      (∀ c ∈ octColors, f c = f res → res.get_nibble ≤ c.get_nibble) := by
  rw [min_by_key_eq_argmin f octColors] at h
  obtain ⟨m, hm⟩ : ∃ m, octColors.argmin f = some m := by
    cases hq : octColors.argmin f with
    | none => exact absurd (List.argmin_eq_none.mp hq) (by simp [octColors])
    | some m => exact ⟨m, rfl⟩
  rw [hm] at h
  simp only [Option.map_some', Option.getD_some] at h
  subst h
  obtain ⟨hmem, hmin, htie⟩ := List.mem_argmin_iff.mp
    (show m ∈ octColors.argmin f by rw [hm]; rfl)
  refine ⟨hmem, hmin, fun c hc hceq => ?_⟩
  have hidx := htie c hc (le_of_eq hceq)
  rwa [indexOf_octColors, indexOf_octColors] at hidx

/-- Claim C5: for every pair of colors a and b, unpacking the packed byte
recovers them, split_byte (colors_byte a b) = ok (a, b), with
colors_byte a b = (code a <<< 4) ||| code b; and split_byte fails with the
out-of-range error exactly when either nibble of its input byte is not one
of the 8 valid codes. -/
theorem c5_pack_unpack_roundtrip :
    (∀ a b : OctColor,
        OctColor.split_byte (OctColor.colors_byte a b) = .ok (a, b) ∧
        OctColor.colors_byte a b = (a.get_nibble <<< 4) ||| b.get_nibble) ∧
    (∀ byte : Nat, byte < 256 →
        ((OctColor.split_byte byte).isOk = false ↔
          (8 ≤ byte % 16 ∨ 8 ≤ byte / 16))) := by
  constructor
  · decide
  · decide

/-- Witness for C5 at the concrete byte 0x9A, whose low nibble 0xA is
outside the valid code range. -/
theorem c5_witness :
    (OctColor.split_byte 0x9A).isOk = false ↔
      (8 ≤ 0x9A % 16 ∨ 8 ≤ 0x9A / 16) :=
  c5_pack_unpack_roundtrip.2 0x9A (by decide)

/-- Claim C6: from_nibble matches only the low 4 bits of its input; every
nibble value below 8 decodes to the color with that code, so decoding the
code of any color returns that color, and every nibble value in 8..15, and
no others, fails with the out-of-range error carrying that nibble. -/
theorem c6_from_nibble_spec :
    (∀ b : Nat, OctColor.from_nibble b = OctColor.from_nibble (b % 16)) ∧
    (∀ c : OctColor, OctColor.from_nibble c.get_nibble = .ok c) ∧
    (∀ n : Nat, n < 16 →
      ((8 ≤ n ↔ OctColor.from_nibble n = .error ⟨n⟩) ∧
       (n < 8 ↔ (OctColor.from_nibble n).isOk = true))) := by
  refine ⟨?_, by decide, by decide⟩
  intro b
  have h1 : b &&& 0xf = b % 16 := nat_and_fifteen b
  have h2 : (b % 16) &&& 0xf = b % 16 := by
    rw [nat_and_fifteen]
    omega
  unfold OctColor.from_nibble
  rw [h1, h2]

/-- Witness for C6 at the concrete out-of-range nibble 9 and the masked
input 0x29. -/
theorem c6_witness :
    OctColor.from_nibble 0x29 = OctColor.from_nibble (0x29 % 16) ∧
      (8 ≤ 9 ↔ OctColor.from_nibble 9 = .error ⟨9⟩) :=
  ⟨c6_from_nibble_spec.1 0x29, (c6_from_nibble_spec.2.2 9 (by decide)).1⟩

/-- Claim C7: nearest-color conversion from an RGB triple is total and
deterministic; an exact match with an enumerated triple is returned as is,
otherwise a color minimizing the squared euclidean distance is returned,
with ties broken by enumeration order (Black first, i.e. smallest
discriminant); (0,0,0) and (10,10,10) map to Black and (255,128,0) maps to
Orange. -/
theorem c7_nearest_color :
    (∀ r g b : Nat,
      (∀ c : OctColor, c.rgb = (r, g, b) → from_rgb888 r g b = c) ∧
      from_rgb888 r g b ∈ octColors ∧
      (∀ c ∈ octColors, sqDist (from_rgb888 r g b) r g b ≤ sqDist c r g b) ∧
      (∀ c ∈ octColors, sqDist c r g b = sqDist (from_rgb888 r g b) r g b →
        (from_rgb888 r g b).get_nibble ≤ c.get_nibble)) ∧
    from_rgb888 0 0 0 = .Black ∧ from_rgb888 10 10 10 = .Black ∧
    from_rgb888 255 128 0 = .Orange := by
  refine ⟨?_, by decide, by decide, by decide⟩
  intro r g b
  rcases hfind : octColors.find? (fun c => c.rgb == (r, g, b)) with _ | found
  · have hnone : ∀ x ∈ octColors, ¬x.rgb = (r, g, b) := by
      intro x hx
      have := List.find?_eq_none.mp hfind x hx
      simpa using this
    have hres : (((octColors.map (fun c => (c, sqDist c r g b))) |> min_by_key).map
        Prod.fst).getD .White = from_rgb888 r g b := by
      unfold from_rgb888
      rw [hfind]
    obtain ⟨hmem, hmin, htie⟩ := pick_min_spec (fun c => sqDist c r g b) _ hres
    exact ⟨fun c hc => absurd hc (hnone c (mem_octColors c)), hmem, hmin, htie⟩
  · have hfd : found.rgb = (r, g, b) := by
      have := List.find?_some hfind
      simpa using this
    have hres : from_rgb888 r g b = found := by
      unfold from_rgb888
      rw [hfind]
    have hzero : sqDist found r g b = 0 := (sqDist_eq_zero_iff found r g b).mpr hfd
    refine ⟨?_, ?_, ?_, ?_⟩
    · intro c hc
      rw [hres]
      exact rgb_injective found c (hfd.trans hc.symm)
    · rw [hres]
      exact mem_octColors found
    · intro c hc
      rw [hres, hzero]
      exact sqDist_nonneg c r g b
    · intro c hc hceq
      rw [hres] at hceq ⊢
      have hc0 : sqDist c r g b = 0 := by rw [hceq, hzero]
      have hcrgb : c.rgb = (r, g, b) := (sqDist_eq_zero_iff c r g b).mp hc0
      have : c = found := rgb_injective c found (hcrgb.trans hfd.symm)
      rw [this]

/-- Witness for C7: the exact-match clause applied at the Orange triple. -/
theorem c7_witness : from_rgb888 255 128 0 = OctColor.Orange :=
  (c7_nearest_color.1 255 128 0).1 OctColor.Orange (by decide)

/-- Width of the display (mod.rs WIDTH). -/
def WIDTH : Nat := 600

/-- Height of the display (mod.rs HEIGHT). -/
def HEIGHT : Nat := 448

/-- Display rotation (display.rs DisplayRotation), clockwise. -/
inductive DisplayRotation where
  | Rotate0
  | Rotate90
  | Rotate180
  | Rotate270
deriving DecidableEq

/-- The framebuffer-backed display (display.rs InkyFrameDisplay): a byte
buffer plus the active rotation.  Bytes are Nats below 256. -/
structure InkyFrameDisplay where
  buffer : List Nat
  rotation : DisplayRotation
deriving DecidableEq

/-- Bounds check against the rotated viewing frame
(display.rs outside_display); the point coordinates are i32. -/
def outside_display (x y : Int) (width height : Nat)
    (rotation : DisplayRotation) : Bool :=
  if x < 0 || y < 0 then true
  else
    match rotation with
    | .Rotate0 | .Rotate180 =>
      decide ((width : Int) ≤ x) || decide ((height : Int) ≤ y)
    | .Rotate90 | .Rotate270 =>
      decide ((width : Int) ≤ y) || decide ((height : Int) ≤ x)

/-- Inverse rotation to native coordinates (display.rs find_rotation).
Only invoked on coordinates that passed the bounds check, where the
subtractions cannot underflow. -/
def find_rotation (x y width height : Nat) (rotation : DisplayRotation) :
    Nat × Nat :=
  match rotation with
  | .Rotate0 => (x, y)
  | .Rotate90 => (width - 1 - y, x)
  | .Rotate180 => (width - 1 - x, height - 1 - y)
  | .Rotate270 => (y, height - 1 - x)

/-- Byte index in the buffer and whether the pixel is the upper nibble
(display.rs find_oct_position). -/
def find_oct_position (x y width height : Nat)
    (rotation : DisplayRotation) : Nat × Bool :=
  let p := find_rotation x y width height rotation
  (p.1 / 2 + (width / 2) * p.2, p.1 &&& 0x1 == 0)

/-- One pixel write into the buffer (display.rs draw_helper): silently
drops out-of-bounds points and out-of-range byte indices, otherwise
replaces only the owning nibble.  Always returns (the Rust error type is
Infallible). -/
def draw_helper (rotation : DisplayRotation) (buffer : List Nat)
    (width height : Nat) (x y : Int) (color : OctColor) : List Nat :=
  if outside_display x y width height rotation then buffer
  else
    let pos := find_oct_position x.toNat y.toNat width height rotation
    let mn : Nat × Nat :=
      if pos.2 then (0x0f, color.get_nibble <<< 4) else (0xf0, color.get_nibble)
    match buffer[pos.1]? with
    | none => buffer
    | some old => buffer.set pos.1 ((old &&& mn.1) ||| mn.2)

/-- One pixel-set request on the display, as performed by draw_iter for a
single pixel (display.rs DrawTarget::draw_iter with WIDTH and HEIGHT). -/
def set_pixel (d : InkyFrameDisplay) (x y : Int) (color : OctColor) :
    InkyFrameDisplay :=
  ⟨draw_helper d.rotation d.buffer WIDTH HEIGHT x y color, d.rotation⟩

/-- Color codes are 3-bit values. -/
lemma nib_lt_eight (c : OctColor) : c.get_nibble < 8 := by
  cases c <;> decide

/-- Writing a nibble into the high half of a byte, arithmetically. -/
lemma landlor_high : ∀ old : Nat, old < 256 → ∀ n : Nat, n < 8 →
    (old &&& 0x0f) ||| (n <<< 4) = n * 16 + old % 16 := by
  decide

/-- Writing a nibble into the low half of a byte, arithmetically. -/
lemma landlor_low : ∀ old : Nat, old < 256 → ∀ n : Nat, n < 8 →
    (old &&& 0xf0) ||| n = old / 16 * 16 + n := by
  decide

/-- The parity test of find_oct_position as a decidable proposition. -/
lemma and_one_beq_decide (n : Nat) : (n &&& 0x1 == 0) = decide (n % 2 = 0) := by
  rw [Nat.and_one_is_mod]
  rcases Nat.mod_two_eq_zero_or_one n with h | h <;> rw [h] <;> decide

/-- In-bounds pixel writes resolve to a byte index, the previous byte, and
a set of the owning nibble only. -/
lemma set_pixel_core (d : InkyFrameDisplay) (x y : Int) (c : OctColor)
    (hout : outside_display x y WIDTH HEIGHT d.rotation = false)
    (hidx : (find_oct_position x.toNat y.toNat WIDTH HEIGHT d.rotation).1 <
      d.buffer.length)
    (hbytes : ∀ b ∈ d.buffer, b < 256) :
    ∃ old,
      d.buffer[(find_oct_position x.toNat y.toNat WIDTH HEIGHT d.rotation).1]? =
        some old ∧ old < 256 ∧
      (set_pixel d x y c).buffer =
        d.buffer.set (find_oct_position x.toNat y.toNat WIDTH HEIGHT d.rotation).1
          (if (find_oct_position x.toNat y.toNat WIDTH HEIGHT d.rotation).2
           then c.get_nibble * 16 + old % 16
           else old / 16 * 16 + c.get_nibble) := by
  have hold : d.buffer[(find_oct_position x.toNat y.toNat WIDTH HEIGHT d.rotation).1]? =
      some (d.buffer[(find_oct_position x.toNat y.toNat WIDTH HEIGHT d.rotation).1]) :=
    List.getElem?_eq_getElem hidx
  have h256 := hbytes _ (List.getElem?_mem hold)
  refine ⟨_, hold, h256, ?_⟩
  show draw_helper d.rotation d.buffer WIDTH HEIGHT x y c = _
  unfold draw_helper
  rw [hout]
  simp only [Bool.false_eq_true, if_false]
  rw [hold]
  rcases hu : (find_oct_position x.toNat y.toNat WIDTH HEIGHT d.rotation).2 with _ | _
  · simp only [hu, Bool.false_eq_true, if_false]
    rw [landlor_low _ h256 _ (nib_lt_eight c)]
  · simp only [hu, if_true]
    rw [landlor_high _ h256 _ (nib_lt_eight c)]

/-- For in-bounds coordinates the computed byte index stays below the
allocated buffer size width/2*height. -/
lemma index_lt (r : DisplayRotation) (x y : Int)
    (h : outside_display x y WIDTH HEIGHT r = false) :
    (find_oct_position x.toNat y.toNat WIDTH HEIGHT r).1 < WIDTH / 2 * HEIGHT := by
  cases r <;>
    (simp [outside_display, WIDTH, HEIGHT] at h
     simp [find_oct_position, find_rotation, WIDTH, HEIGHT]
     omega)

/-- Out-of-bounds pixel writes leave the display untouched. -/
lemma set_pixel_outside (d : InkyFrameDisplay) (x y : Int) (c : OctColor)
    (hout : outside_display x y WIDTH HEIGHT d.rotation = true) :
    set_pixel d x y c = d := by
  obtain ⟨buf, rot⟩ := d
  show (⟨draw_helper rot buf WIDTH HEIGHT x y c, rot⟩ : InkyFrameDisplay) = _
  unfold draw_helper
  rw [hout]
  simp

/-- Pixel writes whose byte index falls beyond the buffer leave the
display untouched. -/
lemma set_pixel_index_oob (d : InkyFrameDisplay) (x y : Int) (c : OctColor)
    (hoob : d.buffer.length ≤
      (find_oct_position x.toNat y.toNat WIDTH HEIGHT d.rotation).1) :
    set_pixel d x y c = d := by
  by_cases hout : outside_display x y WIDTH HEIGHT d.rotation = true
  · exact set_pixel_outside d x y c hout
  · have hfalse : outside_display x y WIDTH HEIGHT d.rotation = false := by
      revert hout
      cases outside_display x y WIDTH HEIGHT d.rotation <;> simp
    have hnone : d.buffer[(find_oct_position x.toNat y.toNat WIDTH HEIGHT
        d.rotation).1]? = none := by
      rw [List.getElem?_eq_none_iff]
      exact hoob
    obtain ⟨buf, rot⟩ := d
    show (⟨draw_helper rot buf WIDTH HEIGHT x y c, rot⟩ : InkyFrameDisplay) = _
    unfold draw_helper
    rw [hfalse]
    simp only [Bool.false_eq_true, if_false]
    rw [hnone]

/-- Inverse rotation to native coordinates exactly as worded in the
specification (0 degrees identity; 90 degrees clockwise (width-1-y, x);
180 degrees (width-1-x, height-1-y); 270 degrees clockwise
(y, height-1-x)), to be compared against the code. -/
def spec_inverse_rotation (r : DisplayRotation) (x y width height : Nat) :
    Nat × Nat :=
  match r with
  | .Rotate0 => (x, y)
  | .Rotate90 => (width - 1 - y, x)
  | .Rotate180 => (width - 1 - x, height - 1 - y)
  | .Rotate270 => (y, height - 1 - x)

/-- An in-bounds write under rotation r at caller coordinates (x, y)
targets native cell (nx, ny): its byte index is nx/2 + (width/2)*ny, the
upper-nibble flag holds exactly when nx is even, and the write places the
4-bit color code in the high nibble of that byte for even nx and in the
low nibble for odd nx, keeping the sibling nibble. -/
def placesPixel (r : DisplayRotation) (x y : Int) (c : OctColor)
    (nx ny : Nat) : Prop :=
  find_oct_position x.toNat y.toNat WIDTH HEIGHT r =
    (nx / 2 + (WIDTH / 2) * ny, decide (nx % 2 = 0)) ∧
  ∀ d : InkyFrameDisplay, d.rotation = r →
    (∀ b ∈ d.buffer, b < 256) →
    nx / 2 + (WIDTH / 2) * ny < d.buffer.length →
    ∃ old, d.buffer[nx / 2 + (WIDTH / 2) * ny]? = some old ∧
      (set_pixel d x y c).buffer =
        d.buffer.set (nx / 2 + (WIDTH / 2) * ny)
          (if nx % 2 = 0 then c.get_nibble * 16 + old % 16
           else old / 16 * 16 + c.get_nibble)

/-- Claim C1: every in-bounds set_pixel under an active rotation computes
its native coordinates by the inverse rotation stated in the spec, targets
byte index nx/2 + (width/2)*ny, and places the 4-bit code in the high
nibble for even nx and the low nibble for odd nx. -/
theorem c1_rotation_addressing (x y : Int) (r : DisplayRotation) (c : OctColor)
    (h : outside_display x y WIDTH HEIGHT r = false) :
    placesPixel r x y c
      (spec_inverse_rotation r x.toNat y.toNat WIDTH HEIGHT).1
      (spec_inverse_rotation r x.toNat y.toNat WIDTH HEIGHT).2 := by
  have hfop : find_oct_position x.toNat y.toNat WIDTH HEIGHT r =
      ((spec_inverse_rotation r x.toNat y.toNat WIDTH HEIGHT).1 / 2 +
        (WIDTH / 2) * (spec_inverse_rotation r x.toNat y.toNat WIDTH HEIGHT).2,
        decide ((spec_inverse_rotation r x.toNat y.toNat WIDTH HEIGHT).1 % 2 = 0)) := by
    cases r <;>
      (simp only [find_oct_position, find_rotation, spec_inverse_rotation]
       rw [and_one_beq_decide])
  refine ⟨hfop, ?_⟩
  intro d hrot hbytes hlen
  obtain ⟨old, hold, h256, hset⟩ := set_pixel_core d x y c
    (by rw [hrot]; exact h) (by rw [hrot, hfop]; exact hlen) hbytes
  simp only [hrot, hfop] at hold hset
  refine ⟨old, hold, ?_⟩
  rw [hset]
  by_cases hp : (spec_inverse_rotation r x.toNat y.toNat WIDTH HEIGHT).1 % 2 = 0 <;>
    simp [hp]

/-- Witness for C1 at (3, 5) under rotation 90: the native cell is
(594, 3), hence byte index 297 + 300*3 = 1197, and 594 is even so the
pixel occupies the high nibble. -/
theorem c1_witness : placesPixel .Rotate90 3 5 .Green 594 3 :=
  c1_rotation_addressing 3 5 .Rotate90 .Green (by decide)

/-- Displays with equal buffers and rotations are equal. -/
lemma ifd_eq (a b : InkyFrameDisplay) (h1 : a.buffer = b.buffer)
    (h2 : a.rotation = b.rotation) : a = b := by
  cases a
  cases b
  simp_all

/-- A pixel write at (x, y) with color c: the owning nibble of the
targeted byte receives the color code, the sibling nibble of that byte is
preserved, every other byte is untouched, and a second write to the same
nibble (with any color c2) overwrites the first. -/
def pixelWriteSpec (d : InkyFrameDisplay) (x y : Int) (c c2 : OctColor) : Prop :=
  ∃ old newb,
    d.buffer[(find_oct_position x.toNat y.toNat WIDTH HEIGHT d.rotation).1]? =
      some old ∧
    (set_pixel d x y c).buffer[(find_oct_position x.toNat y.toNat WIDTH HEIGHT
      d.rotation).1]? = some newb ∧
    ((find_oct_position x.toNat y.toNat WIDTH HEIGHT d.rotation).2 = true →
      newb / 16 = c.get_nibble ∧ newb % 16 = old % 16) ∧
    ((find_oct_position x.toNat y.toNat WIDTH HEIGHT d.rotation).2 = false →
      newb % 16 = c.get_nibble ∧ newb / 16 = old / 16) ∧
    (∀ j, j ≠ (find_oct_position x.toNat y.toNat WIDTH HEIGHT d.rotation).1 →
      (set_pixel d x y c).buffer[j]? = d.buffer[j]?) ∧
    set_pixel (set_pixel d x y c) x y c2 = set_pixel d x y c2

/-- Claim C3: for every in-bounds coordinate, rotation and prior buffer
contents, set_pixel updates only the owning nibble of the targeted byte,
preserves the sibling nibble and all other bytes, and a second write to
the same nibble simply overwrites (last-write-wins). -/
theorem c3_nibble_write (d : InkyFrameDisplay) (x y : Int) (c c2 : OctColor)
    (hbytes : ∀ b ∈ d.buffer, b < 256)
    (hlen : d.buffer.length = WIDTH / 2 * HEIGHT)
    (hin : outside_display x y WIDTH HEIGHT d.rotation = false) :
    pixelWriteSpec d x y c c2 := by
  unfold pixelWriteSpec
  have hidx : (find_oct_position x.toNat y.toNat WIDTH HEIGHT d.rotation).1 <
      d.buffer.length := by
    rw [hlen]
    exact index_lt d.rotation x y hin
  obtain ⟨old, hold, h256, hset⟩ := set_pixel_core d x y c hin hidx hbytes
  have hnib := nib_lt_eight c
  have hmod : old % 16 < 16 := Nat.mod_lt _ (by omega)
  have hnewb256 : (if (find_oct_position x.toNat y.toNat WIDTH HEIGHT d.rotation).2
      then c.get_nibble * 16 + old % 16
      else old / 16 * 16 + c.get_nibble) < 256 := by
    rcases (find_oct_position x.toNat y.toNat WIDTH HEIGHT d.rotation).2 with _ | _ <;>
      simp <;> omega
  refine ⟨old,
    (if (find_oct_position x.toNat y.toNat WIDTH HEIGHT d.rotation).2
     then c.get_nibble * 16 + old % 16 else old / 16 * 16 + c.get_nibble),
    hold, ?_, ?_, ?_, ?_, ?_⟩
  · rw [hset, List.getElem?_set_self]
    exact hidx
  · intro hu
    simp only [hu, if_true]
    omega
  · intro hu
    simp only [hu, Bool.false_eq_true, if_false]
    constructor
    · omega
    · omega
  · intro j hj
    rw [hset, List.getElem?_set_ne]
    omega
  · have hidx2 : (find_oct_position x.toNat y.toNat WIDTH HEIGHT
        (set_pixel d x y c).rotation).1 < (set_pixel d x y c).buffer.length := by
      show (find_oct_position x.toNat y.toNat WIDTH HEIGHT d.rotation).1 <
        (set_pixel d x y c).buffer.length
      rw [hset, List.length_set]
      exact hidx
    have hbytes2 : ∀ b ∈ (set_pixel d x y c).buffer, b < 256 := by
      rw [hset]
      intro b hb
      rcases List.mem_or_eq_of_mem_set hb with h | h
      · exact hbytes b h
      · rw [h]
        exact hnewb256
    obtain ⟨old2, hold2, h2562, hset2⟩ :=
      set_pixel_core (set_pixel d x y c) x y c2 hin hidx2 hbytes2
    have hrots : (set_pixel d x y c).rotation = d.rotation := rfl
    rw [hrots] at hold2 hset2
    obtain ⟨old3, hold3, h2563, hset3⟩ := set_pixel_core d x y c2 hin hidx hbytes
    have hold3eq : old3 = old := by
      rw [hold] at hold3
      exact (Option.some_inj.mp hold3).symm
    have hold2eq : old2 = (if (find_oct_position x.toNat y.toNat WIDTH HEIGHT
        d.rotation).2 then c.get_nibble * 16 + old % 16
        else old / 16 * 16 + c.get_nibble) := by
      have hh : (set_pixel d x y c).buffer[(find_oct_position x.toNat y.toNat WIDTH
          HEIGHT d.rotation).1]? = some (if (find_oct_position x.toNat y.toNat
          WIDTH HEIGHT d.rotation).2 then c.get_nibble * 16 + old % 16
          else old / 16 * 16 + c.get_nibble) := by
        rw [hset, List.getElem?_set_self]
        exact hidx
      rw [hh] at hold2
      exact (Option.some_inj.mp hold2).symm
    apply ifd_eq
    · show (set_pixel (set_pixel d x y c) x y c2).buffer =
        (set_pixel d x y c2).buffer
      rw [hset2, hset3, hset, List.set_set, hold3eq, hold2eq]
      rcases hu : (find_oct_position x.toNat y.toNat WIDTH HEIGHT d.rotation).2 with _ | _ <;>
        simp only [hu, Bool.false_eq_true, if_false, if_true]
      · congr 1
        omega
      · congr 1
        omega
    · rfl

/-- Witness for C3 on a full-size white buffer at (3, 5), rotation 0. -/
theorem c3_witness :
    pixelWriteSpec ⟨List.replicate 134400 0x11, .Rotate0⟩ 3 5 .Green .Red :=
  c3_nibble_write ⟨List.replicate 134400 0x11, .Rotate0⟩ 3 5 .Green .Red
    (by
      intro b hb
      have h := List.eq_of_mem_replicate hb
      omega)
    (by rw [List.length_replicate]; rfl)
    (by decide)

/-- Claim C4: a set_pixel call that is out of bounds for the active
rotation (negative coordinate; x beyond width or y beyond height for
rotations 0 and 180; y beyond width or x beyond height for rotations 90
and 270), or whose computed byte index reaches past the allocated buffer,
returns (the embedding is a total function, as the Rust error type is
Infallible and the lookup uses the checked get_mut) and leaves the buffer
byte-for-byte unchanged. -/
theorem c4_out_of_bounds_noop (d : InkyFrameDisplay) (x y : Int) (c : OctColor)
    (h : x < 0 ∨ y < 0 ∨
      (match d.rotation with
       | .Rotate0 | .Rotate180 => (WIDTH : Int) ≤ x ∨ (HEIGHT : Int) ≤ y
       | .Rotate90 | .Rotate270 => (WIDTH : Int) ≤ y ∨ (HEIGHT : Int) ≤ x) ∨
      d.buffer.length ≤
        (find_oct_position x.toNat y.toNat WIDTH HEIGHT d.rotation).1) :
    set_pixel d x y c = d := by
  by_cases hout : outside_display x y WIDTH HEIGHT d.rotation = true
  · exact set_pixel_outside d x y c hout
  · have hfalse : outside_display x y WIDTH HEIGHT d.rotation = false := by
      revert hout
      cases outside_display x y WIDTH HEIGHT d.rotation <;> simp
    apply set_pixel_index_oob
    rcases h with h | h | h | h
    · exfalso
      cases hr : d.rotation <;> rw [hr] at hfalse <;>
        simp [outside_display, WIDTH, HEIGHT] at hfalse <;> omega
    · exfalso
      cases hr : d.rotation <;> rw [hr] at hfalse <;>
        simp [outside_display, WIDTH, HEIGHT] at hfalse <;> omega
    · exfalso
      cases hr : d.rotation <;> rw [hr] at hfalse h <;>
        simp [outside_display, WIDTH, HEIGHT] at hfalse h <;> omega
    · exact h

/-- Witness for C4: a negative x coordinate is silently dropped. -/
theorem c4_witness :
    set_pixel ⟨List.replicate 4 1, .Rotate0⟩ (-1) 0 .Red =
      ⟨List.replicate 4 1, .Rotate0⟩ :=
  c4_out_of_bounds_noop ⟨List.replicate 4 1, .Rotate0⟩ (-1) 0 .Red
    (Or.inl (by decide))

/-- One observable wire-level event of the driver: the data/command line
driven low or high, one byte written over SPI, or one poll of the busy
signal (polls carry no bytes and are not wire data). -/
inductive WireAction where
  | dcLow
  | dcHigh
  | spiByte (b : Nat)
  | busyPoll (b : Bool)
deriving DecidableEq

/-- Environment behaviour: whether the n-th SPI write transaction
succeeds, whether the n-th data/command-line toggle succeeds, and how many
busy polls the k-th busy_wait sees before the signal clears. -/
structure Oracle where
  spi : Nat → Bool
  dc : Nat → Bool
  busy : Nat → Nat

/-- Driver state threaded through the protocol functions: the stored
background color (mod.rs, the color field of InkyFrame5_7) plus counters
into the oracle. -/
structure DevState where
  color : OctColor
  writeCount : Nat
  dcCount : Nat
  busyWaits : Nat
deriving DecidableEq

/-- Result of one protocol operation: emitted actions, next state, and
the Rust Result (the error carries the index of the failing SPI write, so
propagating it verbatim is observable). -/
abbrev ProtoResult := List WireAction × DevState × Except Nat Unit

/-- Sequence two fallible protocol operations, stopping at the first
error, as the Rust question-mark operator does. -/
def andThen (r : ProtoResult) (k : DevState → ProtoResult) : ProtoResult :=
  match r with
  | (t, st, .error e) => (t, st, .error e)
  | (t, st, .ok _) =>
    match k st with
    | (t2, st2, r2) => (t ++ t2, st2, r2)

/-- Drive the data/command line low (mod.rs, dc.set_low inside command);
the Rust code discards the pin result, so a failing toggle changes
nothing observable but the missing line event. -/
def setDcLow (o : Oracle) (st : DevState) : List WireAction × DevState :=
  ((if o.dc st.dcCount then [WireAction.dcLow] else []),
    ⟨st.color, st.writeCount, st.dcCount + 1, st.busyWaits⟩)

/-- Drive the data/command line high (mod.rs, dc.set_high). -/
def setDcHigh (o : Oracle) (st : DevState) : List WireAction × DevState :=
  ((if o.dc st.dcCount then [WireAction.dcHigh] else []),
    ⟨st.color, st.writeCount, st.dcCount + 1, st.busyWaits⟩)

/-- One SPI transaction (mod.rs, write): every call site passes a single
byte slice.  A failing transaction sends nothing and returns the bus
error. -/
def write (o : Oracle) (st : DevState) (data : List Nat) : ProtoResult :=
  if o.spi st.writeCount then
    (data.map WireAction.spiByte,
      ⟨st.color, st.writeCount + 1, st.dcCount, st.busyWaits⟩, .ok ())
  else
    ([], ⟨st.color, st.writeCount + 1, st.dcCount, st.busyWaits⟩,
      .error st.writeCount)

/-- Send a command byte: line low, then one SPI write (mod.rs command). -/
def command (o : Oracle) (st : DevState) (c : Nat) : ProtoResult :=
  match setDcLow o st with
  | (t, st1) =>
    match write o st1 [c] with
    | (t2, st2, r) => (t ++ t2, st2, r)

/-- The per-byte loop of send_data: one SPI transaction per byte,
stopping at the first failure. -/
def sendBytes (o : Oracle) : DevState → List Nat → ProtoResult
  | st, [] => ([], st, .ok ())
  | st, b :: rest => andThen (write o st [b]) (fun st1 => sendBytes o st1 rest)

/-- Send payload bytes: line high once, then each byte over SPI
(mod.rs send_data). -/
def send_data (o : Oracle) (st : DevState) (data : List Nat) : ProtoResult :=
  match setDcHigh o st with
  | (t, st1) =>
    match sendBytes o st1 data with
    | (t2, st2, r) => (t ++ t2, st2, r)

/-- The repetition loop of data_x_times: n SPI transactions of the same
byte. -/
def repBytes (o : Oracle) (v : Nat) : DevState → Nat → ProtoResult
  | st, 0 => ([], st, .ok ())
  | st, n + 1 => andThen (write o st [v]) (fun st1 => repBytes o v st1 n)

/-- Send the same byte n times: line high once, then the repetition loop
(mod.rs data_x_times). -/
def data_x_times (o : Oracle) (st : DevState) (v n : Nat) : ProtoResult :=
  match setDcHigh o st with
  | (t, st1) =>
    match repBytes o v st1 n with
    | (t2, st2, r) => (t ++ t2, st2, r)

/-- Command followed by its payload (mod.rs cmd_with_data). -/
def cmd_with_data (o : Oracle) (st : DevState) (c : Nat) (data : List Nat) :
    ProtoResult :=
  andThen (command o st c) (fun st1 => send_data o st1 data)

/-- Poll the busy signal until it clears (mod.rs busy_wait): the oracle
says how many polls report busy this time; polls emit no wire data. -/
def busy_wait (o : Oracle) (st : DevState) : List WireAction × DevState :=
  (List.replicate (o.busy st.busyWaits) (WireAction.busyPoll true) ++
      [WireAction.busyPoll false],
    ⟨st.color, st.writeCount, st.dcCount, st.busyWaits + 1⟩)

/-- Run a busy wait, then continue. -/
def withBusy (o : Oracle) (st : DevState) (k : DevState → ProtoResult) :
    ProtoResult :=
  match busy_wait o st with
  | (t, st1) =>
    match k st1 with
    | (t2, st2, r) => (t ++ t2, st2, r)

/-- The Vcom/data-interval update (mod.rs update_vcom): command 0x50 with
the payload 0x17 | ((code(background) & 0b111) << 5). -/
def update_vcom (o : Oracle) (st : DevState) : ProtoResult :=
  cmd_with_data o st 0x50 [0x17 ||| ((st.color.get_nibble &&& 0b111) <<< 5)]

/-- Resolution transmission (mod.rs send_resolution): command 0x61 then
the four bytes of width and height, each in its own send_data call. -/
def send_resolution (o : Oracle) (st : DevState) : ProtoResult :=
  andThen (command o st 0x61) (fun s1 =>
    andThen (send_data o s1 [(WIDTH >>> 8) % 256]) (fun s2 =>
      andThen (send_data o s2 [WIDTH % 256]) (fun s3 =>
        andThen (send_data o s3 [(HEIGHT >>> 8) % 256]) (fun s4 =>
          send_data o s4 [HEIGHT % 256]))))

/-- Frame upload (mod.rs update_frame): busy wait, Vcom update,
resolution, data-start-transmission 0x10 with the buffer as payload, then
data-stop 0x11. -/
def update_frame (o : Oracle) (st : DevState) (buffer : List Nat) :
    ProtoResult :=
  withBusy o st (fun s0 =>
    andThen (update_vcom o s0) (fun s1 =>
      andThen (send_resolution o s1) (fun s2 =>
        andThen (cmd_with_data o s2 0x10 buffer) (fun s3 =>
          command o s3 0x11))))

/-- Refresh sequence (mod.rs display_frame): busy waits bracketing
power-on 0x04, display-refresh 0x12 and power-off 0x02. -/
def display_frame (o : Oracle) (st : DevState) : ProtoResult :=
  withBusy o st (fun s0 =>
    andThen (command o s0 0x04) (fun s1 =>
      withBusy o s1 (fun s2 =>
        andThen (command o s2 0x12) (fun s3 =>
          withBusy o s3 (fun s4 =>
            andThen (command o s4 0x02) (fun s5 =>
              match busy_wait o s5 with
              | (t, s6) => (t, s6, .ok ())))))))

/-- Clear sequence (mod.rs clear_frame): busy wait, Vcom update,
resolution, data-start-transmission 0x10, the packed background byte
streamed width/2*height times, then display_frame.  Note it does not send
the data-stop command. -/
def clear_frame (o : Oracle) (st : DevState) : ProtoResult :=
  withBusy o st (fun s0 =>
    andThen (update_vcom o s0) (fun s1 =>
      andThen (send_resolution o s1) (fun s2 =>
        andThen (command o s2 0x10) (fun s3 =>
          andThen (data_x_times o s3 (OctColor.colors_byte st.color st.color)
              (WIDTH / 2 * HEIGHT)) (fun s4 =>
            display_frame o s4)))))

/-- Upload then refresh (mod.rs update_and_display_frame). -/
def update_and_display_frame (o : Oracle) (st : DevState)
    (buffer : List Nat) : ProtoResult :=
  andThen (update_frame o st buffer) (fun s1 => display_frame o s1)

/-- Pure background-color update (mod.rs set_background_color). -/
def set_background_color (st : DevState) (c : OctColor) : DevState :=
  ⟨c, st.writeCount, st.dcCount, st.busyWaits⟩

/-- Keep only wire-level data and line states: busy polls are reads, not
part of the command/data stream. -/
def wireActions (t : List WireAction) : List WireAction :=
  t.filter (fun a => match a with
    | .busyPoll _ => false
    | _ => true)

/-- Only the bytes written over SPI, in order. -/
def spiBytes (t : List WireAction) : List Nat :=
  t.filterMap (fun a => match a with
    | .spiByte b => some b
    | _ => none)

/-- An environment whose SPI bus and line toggles always succeed; the
busy signal behaves arbitrarily. -/
def okOracle (busyF : Nat → Nat) : Oracle :=
  ⟨fun _ => true, fun _ => true, busyF⟩

@[simp] lemma okOracle_spi (f : Nat → Nat) (n : Nat) :
    (okOracle f).spi n = true := rfl

@[simp] lemma okOracle_dc (f : Nat → Nat) (n : Nat) :
    (okOracle f).dc n = true := rfl

@[simp] lemma okOracle_busy (f : Nat → Nat) (n : Nat) :
    (okOracle f).busy n = f n := rfl

lemma write_ok (f : Nat → Nat) (st : DevState) (data : List Nat) :
    write (okOracle f) st data =
      (data.map WireAction.spiByte,
        ⟨st.color, st.writeCount + 1, st.dcCount, st.busyWaits⟩, .ok ()) := rfl

lemma sendBytes_ok (f : Nat → Nat) :
    ∀ (data : List Nat) (st : DevState),
      sendBytes (okOracle f) st data =
        (data.map WireAction.spiByte,
          ⟨st.color, st.writeCount + data.length, st.dcCount, st.busyWaits⟩,
          .ok ()) := by
  intro data
  induction data with
  | nil => intro st; simp [sendBytes]
  | cons b rest ih =>
    intro st
    simp only [sendBytes, andThen, write_ok, ih, List.map_cons, List.length_cons,
      List.map_nil, List.nil_append, List.cons_append, List.singleton_append,
      Prod.mk.injEq, DevState.mk.injEq, true_and, and_true, eq_self_iff_true]
    omega

lemma repBytes_ok (f : Nat → Nat) (v : Nat) :
    ∀ (n : Nat) (st : DevState),
      repBytes (okOracle f) v st n =
        (List.replicate n (WireAction.spiByte v),
          ⟨st.color, st.writeCount + n, st.dcCount, st.busyWaits⟩, .ok ()) := by
  intro n
  induction n with
  | zero => intro st; simp [repBytes]
  | succ n ih =>
    intro st
    simp only [repBytes, andThen, write_ok, ih, List.replicate_succ,
      List.map_nil, List.nil_append, List.cons_append, List.singleton_append,
      List.map_cons, Prod.mk.injEq, DevState.mk.injEq, true_and, and_true,
      eq_self_iff_true]
    omega

lemma command_ok (f : Nat → Nat) (st : DevState) (c : Nat) :
    command (okOracle f) st c =
      ([.dcLow, .spiByte c],
        ⟨st.color, st.writeCount + 1, st.dcCount + 1, st.busyWaits⟩, .ok ()) := rfl

lemma send_data_ok (f : Nat → Nat) (st : DevState) (data : List Nat) :
    send_data (okOracle f) st data =
      (.dcHigh :: data.map WireAction.spiByte,
        ⟨st.color, st.writeCount + data.length, st.dcCount + 1, st.busyWaits⟩,
        .ok ()) := by
  simp [send_data, setDcHigh, sendBytes_ok]

lemma data_x_times_ok (f : Nat → Nat) (st : DevState) (v n : Nat) :
    data_x_times (okOracle f) st v n =
      (.dcHigh :: List.replicate n (WireAction.spiByte v),
        ⟨st.color, st.writeCount + n, st.dcCount + 1, st.busyWaits⟩, .ok ()) := by
  simp [data_x_times, setDcHigh, repBytes_ok]

lemma cmd_with_data_ok (f : Nat → Nat) (st : DevState) (c : Nat)
    (data : List Nat) :
    cmd_with_data (okOracle f) st c data =
      (.dcLow :: .spiByte c :: .dcHigh :: data.map WireAction.spiByte,
        ⟨st.color, st.writeCount + 1 + data.length, st.dcCount + 2,
          st.busyWaits⟩, .ok ()) := by
  simp [cmd_with_data, andThen, command_ok, send_data_ok]

/-- The busy-poll segment of the k-th busy wait. -/
def busySeg (f : Nat → Nat) (k : Nat) : List WireAction :=
  List.replicate (f k) (WireAction.busyPoll true) ++ [WireAction.busyPoll false]

lemma busy_wait_ok (f : Nat → Nat) (st : DevState) :
    busy_wait (okOracle f) st =
      (busySeg f st.busyWaits,
        ⟨st.color, st.writeCount, st.dcCount, st.busyWaits + 1⟩) := rfl

/-- Wire trace of the Vcom/data-interval update. -/
def vcomTrace (c : OctColor) : List WireAction :=
  [.dcLow, .spiByte 0x50, .dcHigh,
   .spiByte (0x17 ||| ((c.get_nibble &&& 0b111) <<< 5))]

/-- Wire trace of the resolution transmission. -/
def resTrace : List WireAction :=
  [.dcLow, .spiByte 0x61, .dcHigh, .spiByte ((WIDTH >>> 8) % 256),
   .dcHigh, .spiByte (WIDTH % 256), .dcHigh, .spiByte ((HEIGHT >>> 8) % 256),
   .dcHigh, .spiByte (HEIGHT % 256)]

/-- Wire trace of the refresh sequence: power-on, display-refresh,
power-off. -/
def dispWire : List WireAction :=
  [.dcLow, .spiByte 0x04, .dcLow, .spiByte 0x12, .dcLow, .spiByte 0x02]

lemma update_vcom_ok (f : Nat → Nat) (st : DevState) :
    update_vcom (okOracle f) st =
      (vcomTrace st.color,
        ⟨st.color, st.writeCount + 2, st.dcCount + 2, st.busyWaits⟩, .ok ()) := by
  simp only [update_vcom, cmd_with_data_ok, vcomTrace, List.map_cons, List.map_nil,
    List.length_cons, List.length_nil,
    Prod.mk.injEq, DevState.mk.injEq, true_and, and_true, eq_self_iff_true]

lemma send_resolution_ok (f : Nat → Nat) (st : DevState) :
    send_resolution (okOracle f) st =
      (resTrace,
        ⟨st.color, st.writeCount + 5, st.dcCount + 5, st.busyWaits⟩, .ok ()) := by
  simp only [send_resolution, andThen, command_ok, send_data_ok, resTrace,
    List.map_cons, List.map_nil, List.cons_append, List.nil_append,
    List.length_cons, List.length_nil,
    Prod.mk.injEq, DevState.mk.injEq, true_and, and_true, eq_self_iff_true]

lemma display_frame_ok (f : Nat → Nat) (st : DevState) :
    display_frame (okOracle f) st =
      (busySeg f st.busyWaits ++ [WireAction.dcLow, WireAction.spiByte 0x04] ++
        busySeg f (st.busyWaits + 1) ++ [WireAction.dcLow, WireAction.spiByte 0x12] ++
        busySeg f (st.busyWaits + 2) ++ [WireAction.dcLow, WireAction.spiByte 0x02] ++
        busySeg f (st.busyWaits + 3),
        ⟨st.color, st.writeCount + 3, st.dcCount + 3, st.busyWaits + 4⟩, .ok ()) := by
  simp only [display_frame, withBusy, busy_wait_ok, andThen, command_ok,
    List.cons_append, List.nil_append, List.append_assoc,
    Prod.mk.injEq, DevState.mk.injEq, true_and, and_true, eq_self_iff_true]

lemma update_frame_ok (f : Nat → Nat) (st : DevState) (buffer : List Nat) :
    update_frame (okOracle f) st buffer =
      (busySeg f st.busyWaits ++ vcomTrace st.color ++ resTrace ++
        (WireAction.dcLow :: WireAction.spiByte 0x10 :: WireAction.dcHigh ::
          buffer.map WireAction.spiByte) ++
        [WireAction.dcLow, WireAction.spiByte 0x11],
        ⟨st.color, st.writeCount + 2 + 5 + 1 + buffer.length + 1,
          st.dcCount + 2 + 5 + 2 + 1, st.busyWaits + 1⟩, .ok ()) := by
  simp only [update_frame, withBusy, busy_wait_ok, andThen, update_vcom_ok,
    send_resolution_ok, cmd_with_data_ok, command_ok,
    List.cons_append, List.nil_append, List.append_assoc,
    Prod.mk.injEq, DevState.mk.injEq, true_and, and_true, eq_self_iff_true]

lemma clear_body_ok (f : Nat → Nat) (st : DevState) (n : Nat) :
    withBusy (okOracle f) st (fun s0 =>
      andThen (update_vcom (okOracle f) s0) (fun s1 =>
        andThen (send_resolution (okOracle f) s1) (fun s2 =>
          andThen (command (okOracle f) s2 0x10) (fun s3 =>
            andThen (data_x_times (okOracle f) s3
                (OctColor.colors_byte st.color st.color) n) (fun s4 =>
              display_frame (okOracle f) s4))))) =
      (busySeg f st.busyWaits ++ vcomTrace st.color ++ resTrace ++
        (WireAction.dcLow :: WireAction.spiByte 0x10 :: WireAction.dcHigh ::
          List.replicate n
            (WireAction.spiByte (OctColor.colors_byte st.color st.color))) ++
        (busySeg f (st.busyWaits + 1) ++
          [WireAction.dcLow, WireAction.spiByte 0x04] ++
          busySeg f (st.busyWaits + 1 + 1) ++
          [WireAction.dcLow, WireAction.spiByte 0x12] ++
          busySeg f (st.busyWaits + 1 + 2) ++
          [WireAction.dcLow, WireAction.spiByte 0x02] ++
          busySeg f (st.busyWaits + 1 + 3)),
        ⟨st.color, st.writeCount + 2 + 5 + 1 + n + 3,
          st.dcCount + 2 + 5 + 1 + 1 + 3, st.busyWaits + 1 + 4⟩, .ok ()) := by
  simp only [withBusy, busy_wait_ok, andThen, update_vcom_ok, send_resolution_ok,
    command_ok, data_x_times_ok, display_frame_ok, List.cons_append,
    List.nil_append, List.append_assoc, Prod.mk.injEq, DevState.mk.injEq,
    true_and, and_true, eq_self_iff_true]

lemma clear_frame_ok (f : Nat → Nat) (st : DevState) :
    clear_frame (okOracle f) st =
      (busySeg f st.busyWaits ++ vcomTrace st.color ++ resTrace ++
        (WireAction.dcLow :: WireAction.spiByte 0x10 :: WireAction.dcHigh ::
          List.replicate (WIDTH / 2 * HEIGHT)
            (WireAction.spiByte (OctColor.colors_byte st.color st.color))) ++
        (busySeg f (st.busyWaits + 1) ++
          [WireAction.dcLow, WireAction.spiByte 0x04] ++
          busySeg f (st.busyWaits + 1 + 1) ++
          [WireAction.dcLow, WireAction.spiByte 0x12] ++
          busySeg f (st.busyWaits + 1 + 2) ++
          [WireAction.dcLow, WireAction.spiByte 0x02] ++
          busySeg f (st.busyWaits + 1 + 3)),
        ⟨st.color, st.writeCount + 2 + 5 + 1 + WIDTH / 2 * HEIGHT + 3,
          st.dcCount + 2 + 5 + 1 + 1 + 3, st.busyWaits + 1 + 4⟩, .ok ()) :=
  clear_body_ok f st (WIDTH / 2 * HEIGHT)

@[simp] lemma wa_nil : wireActions [] = [] := rfl

@[simp] lemma wa_append (a b : List WireAction) :
    wireActions (a ++ b) = wireActions a ++ wireActions b := by
  simp [wireActions]

@[simp] lemma wa_dcLow (t : List WireAction) :
    wireActions (WireAction.dcLow :: t) = WireAction.dcLow :: wireActions t := rfl

@[simp] lemma wa_dcHigh (t : List WireAction) :
    wireActions (WireAction.dcHigh :: t) = WireAction.dcHigh :: wireActions t := rfl

@[simp] lemma wa_spi (b : Nat) (t : List WireAction) :
    wireActions (WireAction.spiByte b :: t) =
      WireAction.spiByte b :: wireActions t := rfl

@[simp] lemma wa_poll (b : Bool) (t : List WireAction) :
    wireActions (WireAction.busyPoll b :: t) = wireActions t := rfl

@[simp] lemma wa_replicate_poll (n : Nat) (b : Bool) :
    wireActions (List.replicate n (WireAction.busyPoll b)) = [] := by
  induction n with
  | zero => rfl
  | succ n ih => rw [List.replicate_succ, wa_poll, ih]

@[simp] lemma wa_busySeg (f : Nat → Nat) (k : Nat) :
    wireActions (busySeg f k) = [] := by
  rw [busySeg, wa_append, wa_replicate_poll]
  rfl

@[simp] lemma wa_map_spi (l : List Nat) :
    wireActions (l.map WireAction.spiByte) = l.map WireAction.spiByte := by
  induction l with
  | nil => rfl
  | cons b t ih => rw [List.map_cons, wa_spi, ih]

@[simp] lemma wa_replicate_spi (n v : Nat) :
    wireActions (List.replicate n (WireAction.spiByte v)) =
      List.replicate n (WireAction.spiByte v) := by
  induction n with
  | zero => rfl
  | succ n ih => rw [List.replicate_succ, wa_spi, ih]

@[simp] lemma wa_vcom (c : OctColor) : wireActions (vcomTrace c) = vcomTrace c := rfl

@[simp] lemma wa_res : wireActions resTrace = resTrace := rfl

lemma disp_assoc :
    ([WireAction.dcLow, WireAction.spiByte 0x04] ++
      [WireAction.dcLow, WireAction.spiByte 0x12] ++
      [WireAction.dcLow, WireAction.spiByte 0x02] : List WireAction) = dispWire := rfl

lemma clear_wire_nf (st : DevState) (busyF : Nat → Nat) :
    wireActions (clear_frame (okOracle busyF) st).1 =
      vcomTrace st.color ++ resTrace ++
        (WireAction.dcLow :: WireAction.spiByte 0x10 :: WireAction.dcHigh ::
          List.replicate (WIDTH / 2 * HEIGHT)
            (WireAction.spiByte (OctColor.colors_byte st.color st.color))) ++
        dispWire := by
  rw [clear_frame_ok]
  generalize WIDTH / 2 * HEIGHT = N
  simp only [wa_append, wa_busySeg, List.nil_append, List.append_nil,
    wa_vcom, wa_res, wa_dcLow, wa_dcHigh, wa_spi, wa_replicate_spi, wa_nil]
  rw [disp_assoc]

lemma upd_wire_nf (st : DevState) (busyF : Nat → Nat) (buffer : List Nat) :
    wireActions (update_and_display_frame (okOracle busyF) st buffer).1 =
      vcomTrace st.color ++ resTrace ++
        (WireAction.dcLow :: WireAction.spiByte 0x10 :: WireAction.dcHigh ::
          buffer.map WireAction.spiByte) ++
        [WireAction.dcLow, WireAction.spiByte 0x11] ++ dispWire := by
  rw [update_and_display_frame, update_frame_ok]
  simp only [andThen]
  rw [display_frame_ok]
  simp only [wa_append, wa_busySeg, List.nil_append, List.append_nil,
    wa_vcom, wa_res, wa_dcLow, wa_dcHigh, wa_spi, wa_map_spi, wa_nil]
  rw [disp_assoc]

lemma clear_wire_len (st : DevState) (busyF : Nat → Nat) :
    (wireActions (clear_frame (okOracle busyF) st).1).length =
      23 + WIDTH / 2 * HEIGHT := by
  rw [clear_wire_nf]
  rw [List.length_append, List.length_append, List.length_append]
  rw [show (vcomTrace st.color).length = 4 from rfl]
  rw [show resTrace.length = 10 from rfl]
  rw [show dispWire.length = 6 from rfl]
  rw [List.length_cons, List.length_cons, List.length_cons,
    List.length_replicate]
  omega

lemma upd_wire_len (st : DevState) (busyF : Nat → Nat) (buffer : List Nat) :
    (wireActions (update_and_display_frame (okOracle busyF) st buffer).1).length =
      25 + buffer.length := by
  rw [upd_wire_nf]
  rw [List.length_append, List.length_append, List.length_append,
    List.length_append]
  rw [show (vcomTrace st.color).length = 4 from rfl]
  rw [show resTrace.length = 10 from rfl]
  rw [show dispWire.length = 6 from rfl]
  rw [show ([WireAction.dcLow, WireAction.spiByte 0x11] : List WireAction).length = 2
    from rfl]
  rw [List.length_cons, List.length_cons, List.length_cons, List.length_map]
  omega


/-- Claim C2 (amended): the wire-level action sequence of clear_frame
equals that of filling a width*height/2 buffer with
colors_byte(background, background) and running update_frame followed by
display_frame, except that the update_frame path additionally sends the
data-stop command (line low, byte 0x11) between the frame data and the
refresh commands, which clear_frame omits; this holds for every
background color (any driver state) and every busy-signal behaviour. -/
theorem c2_clear_frame_equivalence (st : DevState) (busyF : Nat → Nat) :
    wireActions (clear_frame (okOracle busyF) st).1 =
      vcomTrace st.color ++ resTrace ++
        (WireAction.dcLow :: WireAction.spiByte 0x10 :: WireAction.dcHigh ::
          List.replicate (WIDTH / 2 * HEIGHT)
            (WireAction.spiByte (OctColor.colors_byte st.color st.color))) ++
        dispWire ∧
    wireActions (update_and_display_frame (okOracle busyF) st
        (List.replicate (WIDTH / 2 * HEIGHT)
          (OctColor.colors_byte st.color st.color))).1 =
      vcomTrace st.color ++ resTrace ++
        (WireAction.dcLow :: WireAction.spiByte 0x10 :: WireAction.dcHigh ::
          List.replicate (WIDTH / 2 * HEIGHT)
            (WireAction.spiByte (OctColor.colors_byte st.color st.color))) ++
        [WireAction.dcLow, WireAction.spiByte 0x11] ++ dispWire := by
  constructor
  · exact clear_wire_nf st busyF
  · rw [upd_wire_nf, List.map_replicate]

/-- Counterexample for C2 as stated: at background Black, with a bus that
never fails and a busy signal that clears immediately, the wire trace of
clear_frame differs from that of update_frame plus display_frame on the
background-filled buffer (the latter contains the data-stop command). -/
theorem c2_counterexample :
    ¬ (wireActions (clear_frame (okOracle (fun _ => 0))
          ⟨OctColor.Black, 0, 0, 0⟩).1 =
        wireActions (update_and_display_frame (okOracle (fun _ => 0))
          ⟨OctColor.Black, 0, 0, 0⟩
          (List.replicate (WIDTH / 2 * HEIGHT)
            (OctColor.colors_byte OctColor.Black OctColor.Black))).1) := by
  intro h
  have l1 := clear_wire_len ⟨OctColor.Black, 0, 0, 0⟩ (fun _ => 0)
  have l2 := upd_wire_len ⟨OctColor.Black, 0, 0, 0⟩ (fun _ => 0)
    (List.replicate (WIDTH / 2 * HEIGHT)
      (OctColor.colors_byte OctColor.Black OctColor.Black))
  rw [congrArg List.length h, l2, List.length_replicate] at l1
  omega

/-- Claim C8: update_frame sends the Vcom/data-interval control byte
0x17 | ((code(background) & 0b111) << 5) computed from the background
color stored at call time; set_background_color is a pure state update
whose effect first shows in the Vcom byte of the next update_frame. -/
theorem c8_vcom_background_color (st : DevState) (c : OctColor)
    (busyF : Nat → Nat) (buffer : List Nat) :
    set_background_color st c =
      ⟨c, st.writeCount, st.dcCount, st.busyWaits⟩ ∧
    vcomTrace c = [WireAction.dcLow, WireAction.spiByte 0x50, WireAction.dcHigh,
      WireAction.spiByte (0x17 ||| ((c.get_nibble &&& 0b111) <<< 5))] ∧
    wireActions (update_frame (okOracle busyF) st buffer).1 =
      vcomTrace st.color ++ resTrace ++
        (WireAction.dcLow :: WireAction.spiByte 0x10 :: WireAction.dcHigh ::
          buffer.map WireAction.spiByte) ++
        [WireAction.dcLow, WireAction.spiByte 0x11] ∧
    wireActions (update_frame (okOracle busyF) (set_background_color st c)
        buffer).1 =
      vcomTrace c ++ resTrace ++
        (WireAction.dcLow :: WireAction.spiByte 0x10 :: WireAction.dcHigh ::
          buffer.map WireAction.spiByte) ++
        [WireAction.dcLow, WireAction.spiByte 0x11] := by
  refine ⟨rfl, rfl, ?_, ?_⟩
  · rw [update_frame_ok]
    simp only [wa_append, wa_busySeg, List.nil_append, List.append_nil,
      wa_vcom, wa_res, wa_dcLow, wa_dcHigh, wa_spi, wa_map_spi, wa_nil]
  · rw [update_frame_ok]
    dsimp only [set_background_color]
    simp only [wa_append, wa_busySeg, List.nil_append, List.append_nil,
      wa_vcom, wa_res, wa_dcLow, wa_dcHigh, wa_spi, wa_map_spi, wa_nil]

@[simp] lemma sb_nil : spiBytes [] = [] := rfl

@[simp] lemma sb_append (a b : List WireAction) :
    spiBytes (a ++ b) = spiBytes a ++ spiBytes b := by
  simp [spiBytes]

@[simp] lemma sb_dcLow (t : List WireAction) :
    spiBytes (WireAction.dcLow :: t) = spiBytes t := rfl

@[simp] lemma sb_dcHigh (t : List WireAction) :
    spiBytes (WireAction.dcHigh :: t) = spiBytes t := rfl

@[simp] lemma sb_poll (b : Bool) (t : List WireAction) :
    spiBytes (WireAction.busyPoll b :: t) = spiBytes t := rfl

@[simp] lemma sb_spi (b : Nat) (t : List WireAction) :
    spiBytes (WireAction.spiByte b :: t) = b :: spiBytes t := rfl

@[simp] lemma sb_map (l : List Nat) :
    spiBytes (l.map WireAction.spiByte) = l := by
  induction l with
  | nil => rfl
  | cons b t ih => rw [List.map_cons, sb_spi, ih]

@[simp] lemma sb_take_map (j : Nat) (l : List Nat) :
    spiBytes (List.take j (l.map WireAction.spiByte)) = l.take j := by
  rw [← List.map_take, sb_map]

lemma command_any (o : Oracle) (st : DevState) (c : Nat)
    (h : o.spi st.writeCount = true) :
    command o st c =
      ((if o.dc st.dcCount then [WireAction.dcLow] else []) ++
        [WireAction.spiByte c],
        ⟨st.color, st.writeCount + 1, st.dcCount + 1, st.busyWaits⟩, .ok ()) := by
  simp [command, setDcLow, write, h]

lemma command_fail (o : Oracle) (st : DevState) (c : Nat)
    (h : o.spi st.writeCount = false) :
    command o st c =
      ((if o.dc st.dcCount then [WireAction.dcLow] else []),
        ⟨st.color, st.writeCount + 1, st.dcCount + 1, st.busyWaits⟩,
        .error st.writeCount) := by
  simp [command, setDcLow, write, h]

lemma sendBytes_spi_ok (o : Oracle) :
    ∀ (data : List Nat) (st : DevState),
      (∀ i, i < data.length → o.spi (st.writeCount + i) = true) →
      sendBytes o st data =
        (data.map WireAction.spiByte,
          ⟨st.color, st.writeCount + data.length, st.dcCount, st.busyWaits⟩,
          .ok ()) := by
  intro data
  induction data with
  | nil => intro st hok; simp [sendBytes]
  | cons b rest ih =>
    intro st hok
    have h0 : o.spi st.writeCount = true := by
      have := hok 0 (by simp)
      simpa using this
    have hok2 : ∀ i, i < rest.length → o.spi (st.writeCount + 1 + i) = true := by
      intro i hi
      have := hok (i + 1) (by simp; omega)
      rwa [show st.writeCount + (i + 1) = st.writeCount + 1 + i by omega] at this
    have hres := ih ⟨st.color, st.writeCount + 1, st.dcCount, st.busyWaits⟩
      (by simpa using hok2)
    dsimp only at hres
    simp only [sendBytes, andThen, write, h0, if_true, hres, List.map_cons,
      List.map_nil, List.singleton_append, List.cons_append, List.nil_append,
      List.length_cons, Prod.mk.injEq, DevState.mk.injEq, true_and, and_true,
      eq_self_iff_true]
    omega

/-- The send loop stops at the first failing SPI write: bytes before it
are sent, the error carries the index of the failing write. -/
lemma sendBytes_fail (o : Oracle) :
    ∀ (data : List Nat) (st : DevState) (j : Nat),
      j < data.length →
      (∀ i, i < j → o.spi (st.writeCount + i) = true) →
      o.spi (st.writeCount + j) = false →
      sendBytes o st data =
        ((data.take j).map WireAction.spiByte,
          ⟨st.color, st.writeCount + j + 1, st.dcCount, st.busyWaits⟩,
          .error (st.writeCount + j)) := by
  intro data
  induction data with
  | nil =>
    intro st j hj hok hfail
    simp at hj
  | cons b rest ih =>
    intro st j hj hok hfail
    cases j with
    | zero =>
      have hf : o.spi st.writeCount = false := by simpa using hfail
      simp [sendBytes, andThen, write, hf]
    | succ j =>
      have h0 : o.spi st.writeCount = true := by
        have := hok 0 (by omega)
        simpa using this
      have hok2 : ∀ i, i < j →
          o.spi (st.writeCount + 1 + i) = true := by
        intro i hi
        have := hok (i + 1) (by omega)
        rwa [show st.writeCount + (i + 1) = st.writeCount + 1 + i by omega] at this
      have hfail2 : o.spi (st.writeCount + 1 + j) = false := by
        rwa [show st.writeCount + (j + 1) = st.writeCount + 1 + j by omega] at hfail
      have hres := ih ⟨st.color, st.writeCount + 1, st.dcCount, st.busyWaits⟩ j
        (by simpa using hj) (by simpa using hok2) (by simpa using hfail2)
      dsimp only at hres
      rw [show st.writeCount + (j + 1) = st.writeCount + 1 + j from by omega]
      simp only [sendBytes, andThen, write, h0, if_true, hres,
        List.take_succ_cons, List.map_cons, List.map_nil, List.singleton_append,
        List.cons_append, List.nil_append]


/-- Claim C9 (amended): every SPI byte-write failure during a
command-plus-payload operation is surfaced verbatim to the caller from the
first write that encounters it, with no retry and no further bytes sent
after the failing one; data/command-line toggle failures, however, are
ignored by the code (the pin result is discarded), so with a healthy SPI
bus the operation succeeds and sends every byte regardless of line
failures. -/
theorem c9_spi_error_propagation (o : Oracle) (st : DevState) (cmd : Nat) (data : List Nat)
    (j : Nat) (hj : j < 1 + data.length)
    (hok : ∀ i, i < j → o.spi (st.writeCount + i) = true)
    (hfail : o.spi (st.writeCount + j) = false) :
    (cmd_with_data o st cmd data).2.2 = .error (st.writeCount + j) ∧
    spiBytes (cmd_with_data o st cmd data).1 =
      (if j = 0 then [] else cmd :: data.take (j - 1)) ∧
    (∀ o2 : Oracle, (∀ n, o2.spi n = true) →
      (cmd_with_data o2 st cmd data).2.2 = .ok () ∧
      spiBytes (cmd_with_data o2 st cmd data).1 = cmd :: data) := by
  refine ⟨?_, ?_, ?_⟩
  · cases j with
    | zero =>
      have hf : o.spi st.writeCount = false := by simpa using hfail
      rw [cmd_with_data, command_fail o st cmd hf]
      simp [andThen]
    | succ j =>
      have h0 : o.spi st.writeCount = true := by
        have := hok 0 (by omega)
        simpa using this
      rw [cmd_with_data, command_any o st cmd h0]
      have hok2 : ∀ i, i < j → o.spi (st.writeCount + 1 + i) = true := by
        intro i hi
        have := hok (i + 1) (by omega)
        rwa [show st.writeCount + (i + 1) = st.writeCount + 1 + i by omega] at this
      have hfail2 : o.spi (st.writeCount + 1 + j) = false := by
        rwa [show st.writeCount + (j + 1) = st.writeCount + 1 + j by omega] at hfail
      have hsend := sendBytes_fail o data
        ⟨st.color, st.writeCount + 1, st.dcCount + 1 + 1, st.busyWaits⟩ j
        (by omega) (by simpa using hok2) (by simpa using hfail2)
      dsimp only at hsend
      simp only [andThen, send_data, setDcHigh, hsend]
      rw [show st.writeCount + (j + 1) = st.writeCount + 1 + j from by omega]
  · cases j with
    | zero =>
      have hf : o.spi st.writeCount = false := by simpa using hfail
      rw [cmd_with_data, command_fail o st cmd hf]
      simp only [andThen, if_pos, reduceIte]
      rcases hdc : o.dc st.dcCount with _ | _ <;> simp [hdc]
    | succ j =>
      have h0 : o.spi st.writeCount = true := by
        have := hok 0 (by omega)
        simpa using this
      rw [cmd_with_data, command_any o st cmd h0]
      have hok2 : ∀ i, i < j → o.spi (st.writeCount + 1 + i) = true := by
        intro i hi
        have := hok (i + 1) (by omega)
        rwa [show st.writeCount + (i + 1) = st.writeCount + 1 + i by omega] at this
      have hfail2 : o.spi (st.writeCount + 1 + j) = false := by
        rwa [show st.writeCount + (j + 1) = st.writeCount + 1 + j by omega] at hfail
      have hsend := sendBytes_fail o data
        ⟨st.color, st.writeCount + 1, st.dcCount + 1 + 1, st.busyWaits⟩ j
        (by omega) (by simpa using hok2) (by simpa using hfail2)
      dsimp only at hsend
      simp only [andThen, send_data, setDcHigh, hsend]
      rcases hdc : o.dc st.dcCount with _ | _ <;>
        rcases hdc2 : o.dc (st.dcCount + 1) with _ | _ <;>
        simp [hdc, hdc2]
  · intro o2 h2
    have h0 : o2.spi st.writeCount = true := h2 _
    rw [cmd_with_data, command_any o2 st cmd h0]
    have hsend := sendBytes_spi_ok o2 data
      ⟨st.color, st.writeCount + 1, st.dcCount + 1 + 1, st.busyWaits⟩
      (fun i _ => h2 _)
    dsimp only at hsend
    simp only [andThen, send_data, setDcHigh, hsend]
    constructor
    · trivial
    · rcases hdc : o2.dc st.dcCount with _ | _ <;>
        rcases hdc2 : o2.dc (st.dcCount + 1) with _ | _ <;>
        simp [hdc, hdc2]

/-- Counterexample for C9 as stated: a data/command-line toggle failure
(the dc oracle fails on its first toggle) is not surfaced: the command
returns ok, and the command byte is still sent after the failing
toggle. -/
theorem c9_counterexample :
    (⟨fun _ => true, fun _ => false, fun _ => 0⟩ : Oracle).dc 0 = false ∧
    (command ⟨fun _ => true, fun _ => false, fun _ => 0⟩
      ⟨OctColor.Black, 0, 0, 0⟩ 0x04).2.2 = .ok () ∧
    spiBytes (command ⟨fun _ => true, fun _ => false, fun _ => 0⟩
      ⟨OctColor.Black, 0, 0, 0⟩ 0x04).1 = [0x04] :=
  ⟨rfl, rfl, rfl⟩

/-- Witness for C9: with an SPI bus whose second transaction fails, the
command byte goes out, the payload is cut short, and the error of write 1
is returned. -/
theorem c9_witness :
    (cmd_with_data ⟨fun n => n != 1, fun _ => true, fun _ => 0⟩
      ⟨OctColor.Black, 0, 0, 0⟩ 0x10 [0xAB, 0xCD]).2.2 = .error 1 ∧
    spiBytes (cmd_with_data ⟨fun n => n != 1, fun _ => true, fun _ => 0⟩
      ⟨OctColor.Black, 0, 0, 0⟩ 0x10 [0xAB, 0xCD]).1 = [0x10] := by
  have h := c9_spi_error_propagation ⟨fun n => n != 1, fun _ => true, fun _ => 0⟩
    ⟨OctColor.Black, 0, 0, 0⟩ 0x10 [0xAB, 0xCD] 1 (by decide) (by decide)
    (by decide)
  exact ⟨h.1, h.2.1⟩

/-- The bit loop of read_register (shift_register.rs): per iteration one
fallible input-pin read (sampling the data line) and two fallible clock
toggles; ops are numbered by a global index, reads by a read index; the
byte is accumulated most-significant-bit first via result <<= 1 followed
by result |= bit. -/
def rrLoop (fail bits : Nat → Bool) : Nat → Nat → Nat → Nat → Except Nat Nat
  | _, _, result, 0 => .ok result
  | opIdx, readIdx, result, n + 1 =>
    if fail opIdx then .error opIdx
    else
      let result2 := (result <<< 1) ||| (if bits readIdx then 1 else 0)
      if fail (opIdx + 1) then .error (opIdx + 1)
      else if fail (opIdx + 2) then .error (opIdx + 2)
      else rrLoop fail bits (opIdx + 3) (readIdx + 1) result2 n

/-- The full register read (shift_register.rs read_register): latch low,
latch high (ops 0 and 1), then eight loop iterations; the error carries
the index of the first failing pin operation. -/
def read_register (fail bits : Nat → Bool) : Except Nat Nat :=
  if fail 0 then .error 0
  else if fail 1 then .error 1
  else rrLoop fail bits 2 0 0 8

/-- Mask a single bit of the register byte
(shift_register.rs read_register_bit). -/
def read_register_bit (fail bits : Nat → Bool) (bit_index : Nat) :
    Except Nat Nat :=
  match read_register fail bits with
  | .error e => .error e
  | .ok r => .ok (r &&& (1 <<< bit_index))

/-- The busy predicate backed by the shift register
(shift_register.rs IsBusy::is_busy): bit 7 equal to zero means busy, and
any pin error is swallowed, reporting not busy. -/
def is_busy (fail bits : Nat → Bool) : Bool :=
  match read_register_bit fail bits 7 with
  | .ok res => res == 0
  | .error _ => false

/-- Shifting left one bit and oring a one appends a set low bit. -/
lemma shift_or_div (r : Nat) : (r <<< 1) ||| 1 = 2 * r + 1 := by
  apply Nat.eq_of_testBit_eq
  intro i
  cases i with
  | zero =>
    simp [Nat.testBit_or, Nat.shiftLeft_eq]
    omega
  | succ i =>
    simp only [Nat.testBit_succ]
    rw [Nat.or_div_two]
    have h1 : r <<< 1 / 2 = r := by rw [Nat.shiftLeft_eq]; omega
    have h2 : (2 * r + 1) / 2 = r := by omega
    rw [h1, h2]
    norm_num

/-- One accumulation step of the bit loop, arithmetically. -/
lemma shift_or_bit (r : Nat) (b : Bool) :
    (r <<< 1) ||| (if b then 1 else 0) = 2 * r + (if b then 1 else 0) := by
  cases b
  · simp [Nat.shiftLeft_eq]
    omega
  · simpa using shift_or_div r

/-- A failure-free run of the bit loop appends n fresh bits below the
accumulator, and the most significant fresh bit is the first one read. -/
lemma rrLoop_ok (fail bits : Nat → Bool) :
    ∀ (n opIdx readIdx r : Nat),
      (∀ i, opIdx ≤ i → i < opIdx + 3 * n → fail i = false) →
      ∃ rest, rest < 2 ^ n ∧
        rrLoop fail bits opIdx readIdx r n = .ok (r * 2 ^ n + rest) ∧
        (0 < n → rest / 2 ^ (n - 1) = (if bits readIdx then 1 else 0)) := by
  intro n
  induction n with
  | zero =>
    intro opIdx readIdx r h
    exact ⟨0, by omega, by simp [rrLoop], by omega⟩
  | succ n ih =>
    intro opIdx readIdx r h
    have h0 : fail opIdx = false := h opIdx (by omega) (by omega)
    have h1 : fail (opIdx + 1) = false := h (opIdx + 1) (by omega) (by omega)
    have h2 : fail (opIdx + 2) = false := h (opIdx + 2) (by omega) (by omega)
    obtain ⟨rest, hlt, hrun, hmsb⟩ := ih (opIdx + 3) (readIdx + 1)
      ((r <<< 1) ||| (if bits readIdx then 1 else 0))
      (fun i hi1 hi2 => h i (by omega) (by omega))
    refine ⟨(if bits readIdx then 1 else 0) * 2 ^ n + rest, ?_, ?_, ?_⟩
    · have hpow : (2:Nat) ^ (n + 1) = 2 ^ n + 2 ^ n := by ring
      cases hbit : bits readIdx <;> simp [hbit] <;> omega
    · simp only [rrLoop, h0, h1, h2, Bool.false_eq_true, if_false, hrun]
      congr 1
      rw [shift_or_bit]
      have hpow : (2:Nat) ^ (n + 1) = 2 ^ n * 2 := by ring
      cases bits readIdx <;> simp <;> ring_nf <;> omega
    · intro hpos
      have hp : (0:Nat) < 2 ^ n := Nat.pos_pow_of_pos n (by omega)
      have hd : ((if bits readIdx then 1 else 0) * 2 ^ n + rest) / 2 ^ n =
          (if bits readIdx then 1 else 0) := by
        cases hbit : bits readIdx <;> simp [hbit] <;>
          exact Nat.div_eq_of_lt hlt
      simpa using hd

/-- For bytes, the masked test against 0x80 is the test of bit 7. -/
lemma busy_bit_test : ∀ b : Nat, b < 256 →
    (((b &&& 128 == 0) = true) ↔ b / 128 % 2 = 0) := by decide

/-- Claim C10: when the bit-serial register read succeeds, is_busy is
true exactly when bit 7 of the byte read MSB-first is 0 (that bit is the
first bit sampled); when any underlying pin operation fails (the first
failure occurring at some op index below 26), is_busy swallows the error
and returns false, so a polling busy-wait loop terminates on a read error
instead of surfacing the failure. -/
theorem c10_shift_register_busy (fail bits : Nat → Bool) :
    ((∀ i, i < 26 → fail i = false) →
      ∃ b, read_register fail bits = .ok b ∧ b < 256 ∧
        b / 128 % 2 = (if bits 0 then 1 else 0) ∧
        (is_busy fail bits = true ↔ b / 128 % 2 = 0)) ∧
    (∀ j, j < 26 → (∀ i, i < j → fail i = false) → fail j = true →
      is_busy fail bits = false) := by
  constructor
  · intro h
    obtain ⟨rest, hlt, hrun, hmsb⟩ := rrLoop_ok fail bits 8 2 0 0
      (fun i hi1 hi2 => h i (by omega))
    have hread : read_register fail bits = .ok rest := by
      rw [read_register, hrun]
      simp [h 0 (by omega), h 1 (by omega)]
    have hmsb8 := hmsb (by omega)
    norm_num at hmsb8 hlt
    refine ⟨rest, hread, by omega, ?_, ?_⟩
    · have : (if bits 0 then 1 else 0) ≤ 1 := by cases bits 0 <;> simp
      omega
    · have hb : is_busy fail bits = (rest &&& 128 == 0) := by
        rw [is_busy, read_register_bit, hread]
        norm_num
        rw [show (1 <<< 7 : Nat) = 128 from rfl]
      rw [hb]
      exact busy_bit_test rest (by omega)
  · intro j hj hfirst hfj
    interval_cases j <;>
      simp_all [is_busy, read_register_bit, read_register, rrLoop]

/-- Witness for C10: with failure-free pins reading an all-ones register
the read succeeds with bit 7 set (not busy), and with a latch that fails
immediately is_busy reports false. -/
theorem c10_witness :
    (∃ b, read_register (fun _ => false) (fun _ => true) = .ok b ∧ b < 256 ∧
      b / 128 % 2 = 1 ∧ (is_busy (fun _ => false) (fun _ => true) = true ↔
        b / 128 % 2 = 0)) ∧
    is_busy (fun _ => true) (fun _ => true) = false := by
  constructor
  · have h := (c10_shift_register_busy (fun _ => false) (fun _ => true)).1 (fun i hi => rfl)
    simpa using h
  · exact (c10_shift_register_busy (fun _ => true) (fun _ => true)).2 0 (by omega)
      (fun i hi => absurd hi (by omega)) rfl
